import Mathlib

/-!
Shallow embedding of `perfstatsd/io_usage.cpp`, the I/O accounting engine of
the Pixel `perfstatsd` daemon.

Machine integers are modelled as `Nat` with explicit reduction modulo
`2 ^ 64` (resp. `2 ^ 32`) wherever the C++ code computes in `uint64_t`
(resp. `uint32_t`).  `std::unordered_map` values are modelled as association
lists keyed by the owner id, with iteration order determinized to insertion
order (the map operations used by the code are key lookups, keyed overwrite
and whole-map iteration; totals folded over a map are order independent).
External OS facilities consulted by the identity resolver (the
`/proc` process-name scan behind `ProcPidIoStats::getNameForUid`, and
`getpwuid`) are passed in as an explicit read-only environment.
-/

namespace Perfstatsd

/-- Word size of the `uint64_t` counter fields. -/
def W64 : Nat := 2 ^ 64

/-- Word size of the `uint32_t` owner-id field. -/
def W32 : Nat := 2 ^ 32

/-- Wrapping `uint64_t` addition. -/
def add64 (x y : Nat) : Nat := (x + y) % W64

/-- Wrapping `uint64_t` subtraction: two's-complement wrap-around on
underflow, as exhibited by the unguarded unsigned subtraction in the code. -/
def sub64 (x y : Nat) : Nat := (x % W64 + (W64 - y % W64)) % W64

/-- The `user_io` record declared in `io_usage.h`.  Modelled from the spec:
the Counter Record has an unsigned owner id plus six unsigned 64-bit
counters (foreground/background read, write and fsync). -/
structure user_io where
  uid : Nat
  fg_read : Nat
  fg_write : Nat
  bg_read : Nat
  bg_write : Nat
  fg_fsync : Nat
  bg_fsync : Nat
deriving DecidableEq, Repr

/-- Modelled from the spec: the zero/reset value of a Counter Record
(`user_io::reset` and zero aggregate initialization in `io_usage.h`). -/
def user_io.zero : user_io := ⟨0, 0, 0, 0, 0, 0, 0⟩

/-- Modelled from the spec: field-wise addition of Counter Records
(`operator+` declared in `io_usage.h`), each `uint64_t` field wrapping
modulo `2 ^ 64`; the owner id of the left operand is kept. -/
def userIoAdd (a b : user_io) : user_io :=
  ⟨a.uid, add64 a.fg_read b.fg_read, add64 a.fg_write b.fg_write,
    add64 a.bg_read b.bg_read, add64 a.bg_write b.bg_write,
    add64 a.fg_fsync b.fg_fsync, add64 a.bg_fsync b.bg_fsync⟩

/-- Modelled from the spec: field-wise subtraction of Counter Records
(`operator-` declared in `io_usage.h`), each `uint64_t` field wrapping on
underflow; the owner id of the left operand is kept. -/
def userIoSub (a b : user_io) : user_io :=
  ⟨a.uid, sub64 a.fg_read b.fg_read, sub64 a.fg_write b.fg_write,
    sub64 a.bg_read b.bg_read, sub64 a.bg_write b.bg_write,
    sub64 a.fg_fsync b.fg_fsync, sub64 a.bg_fsync b.bg_fsync⟩

/-- Translation of `io_sum_read` (io_usage.cpp:43): combined read bytes,
a `uint64_t` sum. -/
def io_sum_read (d : user_io) : Nat := add64 d.fg_read d.bg_read

/-- Translation of `io_sum_write` (io_usage.cpp:47): combined write bytes,
a `uint64_t` sum. -/
def io_sum_write (d : user_io) : Nat := add64 d.fg_write d.bg_write

/-- Value of `AID_APP_START` from the external Android header
`android_filesystem_config.h`: the first owner id reserved for
applications. -/
def AID_APP_START : Nat := 10000

/-- Translation of `isAppUid` (io_usage.cpp:78). -/
def isAppUid (uid : Nat) : Bool := decide (AID_APP_START ≤ uid)

/-- Modelled from the spec: `IO_TOP_MAX`, the fixed Top-K size declared in
the missing `io_usage.h` (the spec's sample report shows five ranks). -/
def IO_TOP_MAX : Nat := 5

/-- State of one `IoStats` object (member variables declared in
`io_usage.h`, manipulated by io_usage.cpp).  Timestamps are abstract `Nat`
instants.  `mReadTop` and `mWriteTop` are the K-slot ranker arrays.
`mMinSizeOfTotalRead` and `mMinSizeOfTotalWrite` are the dump thresholds. -/
structure IoStats where
  mPrevious : List user_io
  mLast : Nat
  mNow : Nat
  mTotal : user_io
  mReadTop : List user_io
  mWriteTop : List user_io
  mUidNameMap : List (Nat × String)
  mUnknownUidList : List Nat
  mMinSizeOfTotalRead : Nat
  mMinSizeOfTotalWrite : Nat
deriving DecidableEq, Repr

/-- Translation of the slot loop shared by `IoStats::updateTopRead`
(io_usage.cpp:169) and `IoStats::updateTopWrite` (io_usage.cpp:181): walk
the K slots in order carrying a candidate; whenever the candidate's metric
strictly exceeds the slot's, candidate and slot swap, and the displaced
occupant is carried on to the next slot.  A candidate still carried at the
end is discarded. -/
def cascade (m : user_io → Nat) : user_io → List user_io → List user_io
  | _, [] => []
  | x, y :: ys => if m y < m x then x :: cascade m y ys else y :: cascade m x ys

/-- Translation of `IoStats::updateTopRead` (io_usage.cpp:169). -/
def updateTopRead (st : IoStats) (usage : user_io) : IoStats :=
  { st with mReadTop := cascade io_sum_read usage st.mReadTop }

/-- Translation of `IoStats::updateTopWrite` (io_usage.cpp:181). -/
def updateTopWrite (st : IoStats) (usage : user_io) : IoStats :=
  { st with mWriteTop := cascade io_sum_write usage st.mWriteTop }

/-- External lookup environment for one tick: `procName` is the
uid-to-command-name mapping held by `ProcPidIoStats` after its `update`
scan of `/proc`; `pwName` is the system identity database consulted through
`getpwuid`. -/
structure Env where
  procName : Nat → Option String
  pwName : Nat → Option String

/-- Lookup in an association list keyed by owner id, as
`std::unordered_map::find`. -/
def lookupName (m : List (Nat × String)) (k : Nat) : Option String :=
  (m.find? (fun p => p.1 == k)).map (·.2)

/-- Keyed overwrite in an association list, as assignment through
`std::unordered_map::operator[]`: replace the entry when the key is
present, append otherwise. -/
def assocSet (m : List (Nat × String)) (k : Nat) (v : String) : List (Nat × String) :=
  if m.any (fun p => p.1 == k) then m.map (fun p => if p.1 == k then (k, v) else p)
  else m ++ [(k, v)]

/-- Keyed overwrite for snapshot maps (`std::unordered_map<uint32_t,
user_io>`), keyed by the record's `uid` field. -/
def assocSetIo (l : List user_io) (d : user_io) : List user_io :=
  if l.any (fun e => e.uid == d.uid) then l.map (fun e => if e.uid == d.uid then d else e)
  else l ++ [d]

/-- Snapshot lookup by owner id (`mPrevious.find(d.uid)` /
`mPrevious[d.uid]` in io_usage.cpp:244-247). -/
def lookupSnap (snap : List user_io) (uid : Nat) : Option user_io :=
  snap.find? (fun e => e.uid == uid)

/-- One loop body of `IoStats::updateUnknownUidList` (io_usage.cpp:199-225)
minus the vector bookkeeping: dispatch one uid to the resolver appropriate
for its range and, on success, store the name in the cache.  Returns the
updated cache and whether the uid resolved (resolution success is what
triggers the `erase` in the source; both the App branch and the system
branch `continue` without erasing on a failed lookup). -/
def drainStep (env : Env) (uid : Nat) (map : List (Nat × String)) :
    List (Nat × String) × Bool :=
  if isAppUid uid then
    match env.procName uid with
    | none => (map, false)
    | some n => (assocSet map uid n, true)
  else
    match env.pwName uid with
    | none => (map, false)
    | some n => (assocSet map uid n, true)

/-- Translation of the indexed loop of `IoStats::updateUnknownUidList`
(io_usage.cpp:199-225): `i` runs from 0 to the length the vector had on
entry (`len` is cached before the loop), reading `mUnknownUidList[i]` from
the CURRENT vector, which shrinks whenever a uid resolves
(`erase(remove(...))` removes every occurrence of the uid).  When `i`
reaches past the current size the C++ `operator[]` access is out of
bounds — undefined behavior; the model skips the iteration and raises the
`oob` flag (everything the model reports after a raised flag only reflects
the defined iterations).  Returns the final vector, cache, the trace of
dispatched uids tagged with the branch taken (`true` for the App branch),
and the flag.  `steps` counts the remaining iterations, so it starts at
`len`. -/
def drainLoop (env : Env) (steps i : Nat) (v : List Nat)
    (map : List (Nat × String)) (trace : List (Nat × Bool)) (oob : Bool) :
    List Nat × List (Nat × String) × List (Nat × Bool) × Bool :=
  match steps with
  | 0 => (v, map, trace, oob)
  | steps' + 1 =>
    match v.get? i with
    | none => drainLoop env steps' (i + 1) v map trace true
    | some uid =>
      let r := drainStep env uid map
      let v' := if r.2 then v.filter (fun u => u != uid) else v
      drainLoop env steps' (i + 1) v' r.1 (trace ++ [(uid, isAppUid uid)]) oob

/-- Translation of `IoStats::updateUnknownUidList` (io_usage.cpp:193):
early return when the pending vector is empty; otherwise run the dispatch
loop and unconditionally clear the vector (io_usage.cpp:235).  The
`mProcIoStats.update(false)` refresh is absorbed into `env.procName`. -/
def updateUnknownUidList (env : Env) (st : IoStats) :
    IoStats × List (Nat × Bool) × Bool :=
  if st.mUnknownUidList = [] then (st, [], false)
  else
    let r := drainLoop env st.mUnknownUidList.length 0 st.mUnknownUidList
      st.mUidNameMap [] false
    ({ st with mUidNameMap := r.2.1, mUnknownUidList := [] }, r.2.2.1, r.2.2.2)

/-- One delta of `IoStats::calcIncrement` (io_usage.cpp:243-248): the
record unchanged when the owner id is absent from the previous snapshot,
the field-wise difference against it otherwise. -/
def incDiff (prev : List user_io) (d : user_io) : user_io :=
  match lookupSnap prev d.uid with
  | none => d
  | some p => userIoSub d p

/-- The `diffs` map built by `IoStats::calcIncrement` (io_usage.cpp:240-254),
keyed by `d.uid` (`diffs[d.uid] = ...` overwrites duplicate keys). -/
def calcIncrementDiffs (prev : List user_io) (data : List user_io) : List user_io :=
  data.foldl (fun acc d => assocSetIo acc (incDiff prev d)) []

/-- The uids pushed onto `mUnknownUidList` by `IoStats::calcIncrement`
(io_usage.cpp:249-253): owners whose freshly computed delta has non-zero
combined read or write and that have no cached name yet. -/
def calcIncrementPending (prev : List user_io) (nameMap : List (Nat × String))
    (data : List user_io) : List Nat :=
  (data.filter (fun d =>
    ((io_sum_read (incDiff prev d) != 0) || (io_sum_write (incDiff prev d) != 0)) &&
      (lookupName nameMap d.uid).isNone)).map (·.uid)

/-- One iteration of the accumulation loop of `IoStats::calcAll`
(io_usage.cpp:286-293): add the delta into Total, then offer it to the read
ranker and the write ranker. -/
def calcStep (s : IoStats) (d : user_io) : IoStats :=
  updateTopWrite (updateTopRead { s with mTotal := userIoAdd s.mTotal d } d) d

/-- The uninitialized branch of `IoStats::calcAll` (io_usage.cpp:262-272):
store the snapshot as `mPrevious` and advance the timestamps.  The source
executes `mPrevious = std::move(data)` and only THEN iterates `data` to
push every owner id onto `mUnknownUidList`: the local map has just been
moved from and is empty (libstdc++ and libc++ both leave a moved-from
`unordered_map` empty), so the push loop never runs — the model therefore
adds nothing to the pending list here.  `updateUnknownUidList` is still
called, on whatever the pending list already held. -/
def calcAllInit (env : Env) (st : IoStats) (data : List user_io) (now : Nat) :
    IoStats × List (Nat × Bool) × Bool :=
  let st1 := { st with mPrevious := data, mLast := st.mNow, mNow := now }
  updateUnknownUidList env st1

/-- The initialized branch of `IoStats::calcAll` (io_usage.cpp:273-294):
advance the timestamps, compute the increment map (whose construction also
queues unknown uids and drains them), store `data` as the previous
snapshot, reset Total and both ranker arrays, then fold every delta through
`calcStep`. -/
def calcAllRun (env : Env) (st : IoStats) (data : List user_io) (now : Nat) :
    IoStats × List (Nat × Bool) × Bool :=
  let st1 := { st with mLast := st.mNow, mNow := now }
  let diffs := calcIncrementDiffs st1.mPrevious data
  let pend := calcIncrementPending st1.mPrevious st1.mUidNameMap data
  let r := updateUnknownUidList env
    { st1 with mUnknownUidList := st1.mUnknownUidList ++ pend }
  let st2 := { r.1 with mPrevious := data, mTotal := user_io.zero }
  let st3 := { st2 with mReadTop := List.replicate IO_TOP_MAX user_io.zero, mWriteTop := List.replicate IO_TOP_MAX user_io.zero }
  (diffs.foldl calcStep st3, r.2.1, r.2.2)

/-- Translation of `IoStats::calcAll` (io_usage.cpp:260): dispatch on the
uninitialized-state marker `mLast == mNow`.  Returns the new state together
with the resolver dispatch trace and out-of-bounds flag coming from
`updateUnknownUidList`. -/
def calcAll (env : Env) (st : IoStats) (data : List user_io) (now : Nat) :
    IoStats × List (Nat × Bool) × Bool :=
  if st.mLast = st.mNow then calcAllInit env st data now
  else calcAllRun env st data now

/-- A whole sequence of ticks: fold `calcAll` over per-tick inputs (the
environment, the parsed snapshot, the new timestamp), keeping the state. -/
def runTicks (st : IoStats) (ticks : List (Env × List user_io × Nat)) : IoStats :=
  ticks.foldl (fun s t => (calcAll t.1 s t.2.1 t.2.2).1) st

/-- One line of the report produced by `IoStats::dump` (io_usage.cpp:312),
abstracted to its structure: the total line (elapsed milliseconds, combined
read and write bytes, combined fsync count), the ranking header, the two
threshold-skip notices (carrying the actual total and the threshold in
whole megabytes), and the per-rank entries (1-based rank, the record, and
the resolved name or the `-` placeholder).  The percentage column, a
`float`, is not modelled; the claims settled against `dumpLines` concern
only which lines appear. -/
inductive DumpLine where
  | total (ms rd wr fsync : Nat)
  | header
  | skipRead (amount threshMB : Nat)
  | skipWrite (amount threshMB : Nat)
  | readEntry (rank : Nat) (rec : user_io) (name : String)
  | writeEntry (rank : Nat) (rec : user_io) (name : String)
deriving DecidableEq, Repr

/-- The per-rank emission loop of `IoStats::dump` (io_usage.cpp:345-360 and
374-389): emit ranks in slot order, stopping at the first slot whose metric
is zero. -/
def topEntriesGo (m : user_io → Nat) (mk : Nat → user_io → String → DumpLine)
    (nameMap : List (Nat × String)) : Nat → List user_io → List DumpLine
  | _, [] => []
  | rank, t :: ts =>
    if m t = 0 then []
    else mk rank t ((lookupName nameMap t.uid).getD "-") ::
      topEntriesGo m mk nameMap (rank + 1) ts

/-- One ranking section of `IoStats::dump`: sum the ranker slots into
`total` and, unless that sum's metric is zero (the in-loop
`io_sum(total) == 0` break, whose condition is loop invariant), emit the
non-zero slots in order. -/
def topEntries (m : user_io → Nat) (mk : Nat → user_io → String → DumpLine)
    (nameMap : List (Nat × String)) (arr : List user_io) : List DumpLine :=
  let tot := arr.foldl (fun acc t => userIoAdd acc t) user_io.zero
  if m tot = 0 then [] else topEntriesGo m mk nameMap 1 arr

/-- Translation of `IoStats::dump` (io_usage.cpp:312) to the line structure
of its output: the total line always; the header line only when combined
read or combined write reaches its threshold; then for each of the read and
write sections either the skip notice (when that side's total is below its
threshold) or the ranked entries. -/
def dumpLines (st : IoStats) : List DumpLine :=
  let rd := io_sum_read st.mTotal
  let wr := io_sum_write st.mTotal
  [DumpLine.total (st.mNow - st.mLast) rd wr (add64 st.mTotal.fg_fsync st.mTotal.bg_fsync)]
    ++ (if st.mMinSizeOfTotalRead ≤ rd ∨ st.mMinSizeOfTotalWrite ≤ wr
        then [DumpLine.header] else [])
    ++ (if rd < st.mMinSizeOfTotalRead
        then [DumpLine.skipRead rd (st.mMinSizeOfTotalRead / 1000000)]
        else topEntries io_sum_read DumpLine.readEntry st.mUidNameMap st.mReadTop)
    ++ (if wr < st.mMinSizeOfTotalWrite
        then [DumpLine.skipWrite wr (st.mMinSizeOfTotalWrite / 1000000)]
        else topEntries io_sum_write DumpLine.writeEntry st.mUidNameMap st.mWriteTop)

/-- Modelled from the spec: the external `android::base::ParseUint<T>`
numeric-field parser over the characters of one field, interface described
by the spec as "parse as unsigned integers" — a non-empty all-decimal-digit
token whose value fits the target width (`bound` is `2 ^ 32` for the uid
field, `2 ^ 64` for the counters). -/
def parseUintDigits (bound : Nat) (cs : List Char) : Option Nat :=
  if cs = [] then none
  else if cs.all Char.isDigit then
    let v := cs.foldl (fun a c => a * 10 + (c.toNat - 48)) 0
    if v < bound then some v else none
  else none

/-- Modelled from the spec: `android::base::ParseUint` on a whole string
(used on option values by `io_usage::setOptions`). -/
def parseUintN (bound : Nat) (s : String) : Option Nat :=
  parseUintDigits bound s.data

/-- Splitting a character list at every occurrence of one separator
character, keeping empty pieces — the behavior of `android::base::Split`
with the single-character delimiter string used at io_usage.cpp:395.  At
least one piece is always produced. -/
def splitOnChar (sep : Char) : List Char → List (List Char)
  | [] => [[]]
  | c :: cs =>
    match splitOnChar sep cs with
    | [] => [[]]
    | f :: rest => if c = sep then [] :: f :: rest else (c :: f) :: rest

/-- Translation of `read_line_to_data` (io_usage.cpp:394): split the line at
every single space character (empty pieces between consecutive spaces are
kept as fields), require at least 11 fields, and parse fields 0, 3, 4, 7,
8, 9, 10 into the record; any failure rejects the line. -/
def read_line_to_data (line : String) : Option user_io :=
  let fields := splitOnChar ' ' line.data
  if fields.length < 11 then none
  else
    match parseUintDigits W32 (fields.getD 0 []), parseUintDigits W64 (fields.getD 3 []),
        parseUintDigits W64 (fields.getD 4 []), parseUintDigits W64 (fields.getD 7 []),
        parseUintDigits W64 (fields.getD 8 []), parseUintDigits W64 (fields.getD 9 []),
        parseUintDigits W64 (fields.getD 10 []) with
    | some u, some fr, some fw, some br, some bw, some ff, some bf =>
      some ⟨u, fr, fw, br, bw, ff, bf⟩
    | _, _, _, _, _, _, _ => none

/-- The snapshot-building loop of `io_usage::refresh` (io_usage.cpp:466-476):
skip empty lines, skip lines `read_line_to_data` rejects, and key accepted
records by uid (`datas[data.uid] = data`). -/
def snapshotOfLines (lines : List String) : List user_io :=
  lines.foldl (fun acc l =>
    if l = "" then acc
    else
      match read_line_to_data l with
      | none => acc
      | some d => assocSetIo acc d) []

/-- Splitting a character list at every character satisfying a predicate,
keeping empty pieces. -/
def splitWhen (p : Char → Bool) : List Char → List (List Char)
  | [] => [[]]
  | c :: cs =>
    match splitWhen p cs with
    | [] => [[]]
    | f :: rest => if p c then [] :: f :: rest else (c :: f) :: rest

/-- Specification-side reading of the parsing claim's wording: the
whitespace-separated fields of a line (split at whitespace characters,
empty pieces dropped). -/
def wsFields (s : String) : List (List Char) :=
  (splitWhen Char.isWhitespace s.data).filter (fun f => f ≠ [])

/-- Decimal digit count with explicit fuel (enough fuel is always passed:
the fuel only decreases while the value still has another digit). -/
def numDigitsFuel : Nat → Nat → Nat
  | 0, _ => 1
  | fuel + 1, x => if x < 10 then 1 else 1 + numDigitsFuel fuel (x / 10)

/-- Decimal digit count of `x`: the value `snprintf(str, size, PRIu64, x)`
returns in `print_num` (io_usage.cpp:55) — the full untruncated length. -/
def numDigits (x : Nat) : Nat := numDigitsFuel x x

/-- The write loop of `print_num` (io_usage.cpp:66-74) as the list of
`(index, character)` stores it performs: for `i` from 0 while `i < len`,
write the digit at `j` and decrement `j`; after every third digit, write a
comma at `j` (guarded by `j >= 0`) and decrement `j` again.  `j` is an
`int` in the source, hence `Int` here.  `steps` is the remaining iteration
count, starting at `len`. -/
def pnLoop (x : Nat) (i : Nat) (steps : Nat) (j : Int) : List (Int × Char) :=
  match steps with
  | 0 => []
  | s + 1 =>
    let d := x % 10
    let rest := x / 10
    (j, Char.ofNat (48 + d)) ::
      (if i % 3 = 2 then
        (if 0 ≤ j - 1 then (j - 1, ',') :: pnLoop rest (i + 1) s (j - 2)
         else pnLoop rest (i + 1) s (j - 1))
       else pnLoop rest (i + 1) s (j - 1))

/-- Translation of `print_num` (io_usage.cpp:54) to the raw stores it
performs past the two size checks: `none` when a check fails (the function
returns `false`); otherwise the NUL store at `endpos = len + (len - 1) / 3`
followed by the digit/comma stores of the loop.  The initial `snprintf` is
bounded by contract and is not part of the store list. -/
def print_num_writes (x size : Nat) : Option (List (Int × Char)) :=
  let len := numDigits x
  if size < len + 1 then none
  else
    let endpos := len + (len - 1) / 3
    if size < endpos then none
    else some (((endpos : Int), Char.ofNat 0) :: pnLoop x 0 len ((endpos : Int) - 1))

/-- State of one `io_usage` object together with the file-scope option
globals `sDisabled` and `sOptDebug` (io_usage.cpp:40-41). -/
structure io_usage where
  mStats : IoStats
  sDisabled : Bool
  sOptDebug : Bool
deriving DecidableEq, Repr

/-- Translation of `io_usage::setOptions` (io_usage.cpp:429): keys outside
the four-key filter are ignored outright; for admitted keys the value must
parse as a `uint64_t`, and then the matching branch updates the thresholds
or the debug flag.  The `iostats.disabled` branch of the inner chain is
reproduced as in the source. -/
def setOptions (u : io_usage) (key value : String) : io_usage :=
  if key = "iostats.min" ∨ key = "iostats.read.min" ∨ key = "iostats.write.min" ∨
      key = "iostats.debug" then
    match parseUintN W64 value with
    | none => u
    | some val =>
      if key = "iostats.min" then
        { u with mStats := { u.mStats with mMinSizeOfTotalRead := val, mMinSizeOfTotalWrite := val } }
      else if key = "iostats.disabled" then { u with sDisabled := val ≠ 0 }
      else if key = "iostats.read.min" then
        { u with mStats := { u.mStats with mMinSizeOfTotalRead := val } }
      else if key = "iostats.write.min" then
        { u with mStats := { u.mStats with mMinSizeOfTotalWrite := val } }
      else if key = "iostats.debug" then { u with sOptDebug := val ≠ 0 }
      else u
  else u

/-- One offer call of the sequences quantified over by the ranker claim:
`true` tags a call to `updateTopRead`, `false` a call to `updateTopWrite`. -/
def offerStep (s : IoStats) (c : Bool × user_io) : IoStats :=
  if c.1 then updateTopRead s c.2 else updateTopWrite s c.2

/-- The ranker cascade projected to the metric values (the slot walk of
`updateTopRead`/`updateTopWrite` compares only the metric). -/
def cascadeN : Nat → List Nat → List Nat
  | _, [] => []
  | x, y :: ys => if y < x then x :: cascadeN y ys else y :: cascadeN x ys

/-- Insertion into a descending list, placing the new value below every
element it does not strictly exceed. -/
def insDesc : Nat → List Nat → List Nat
  | x, [] => [x]
  | x, y :: ys => if y < x then x :: y :: ys else y :: insDesc x ys

/-- Descending insertion sort of the metric values, processing the list in
order (so among equal values earlier elements end up first). -/
def sortDesc (l : List Nat) : List Nat :=
  l.foldl (fun acc x => insDesc x acc) []

/-- Record-level stable descending insertion by a metric: the new record
goes below every incumbent whose metric it does not strictly exceed. -/
def insStable (m : user_io → Nat) (x : user_io) : List user_io → List user_io
  | [] => [x]
  | y :: ys => if m y < m x then x :: y :: ys else y :: insStable m x ys

/-- Record-level stable descending sort by a metric, processing the offer
sequence in order: among records of equal metric, the earlier-offered one
stays above. -/
def stableSortBy (m : user_io → Nat) (xs : List user_io) : List user_io :=
  xs.foldl (fun acc x => insStable m x acc) []

/-- Specification-side definition following the ranker claim's words: the K
(or fewer) largest-metric records ever offered, in descending order by the
metric, ties broken in favor of the earlier-offered record; zero-metric
records are never retained, and unused slots hold the zero record. -/
def specTopStable (m : user_io → Nat) (K : Nat) (xs : List user_io) : List user_io :=
  List.take K (stableSortBy m (xs.filter (fun x => m x != 0)) ++ List.replicate K user_io.zero)

/-- Test environment: three application uids resolvable through the process
scan, nothing resolvable through `getpwuid`. -/
def envFix : Env :=
  ⟨fun u => if u == 10001 then some "a" else if u == 10002 then some "b"
    else if u == 10003 then some "c" else none, fun _ => none⟩

/-- Test state whose pending list holds three resolvable application uids. -/
def stPend : IoStats :=
  ⟨[], 0, 0, user_io.zero, [], [], [], [10001, 10002, 10003], 0, 0⟩

/-- Test record owned by application uid 10001 with non-zero read bytes. -/
def recA : user_io := ⟨10001, 5, 0, 0, 0, 0, 0⟩

/-- Test state in the uninitialized marker state (`mLast == mNow`). -/
def stSeed : IoStats :=
  ⟨[], 7, 7, user_io.zero, List.replicate IO_TOP_MAX user_io.zero,
    List.replicate IO_TOP_MAX user_io.zero, [], [], 0, 0⟩

/-- Test state for an initialized tick whose previous snapshot is `[recA]`. -/
def stTick : IoStats :=
  ⟨[recA], 0, 10, user_io.zero, List.replicate IO_TOP_MAX user_io.zero,
    List.replicate IO_TOP_MAX user_io.zero, [], [], 0, 0⟩

/-- Test state with zero totals and non-zero dump thresholds. -/
def stDump : IoStats :=
  ⟨[], 0, 10, user_io.zero, List.replicate IO_TOP_MAX user_io.zero,
    List.replicate IO_TOP_MAX user_io.zero, [], [], 1000, 1000⟩

/-- Test state whose name cache already maps uid 5. -/
def stCached : IoStats :=
  ⟨[], 0, 5, user_io.zero, List.replicate IO_TOP_MAX user_io.zero,
    List.replicate IO_TOP_MAX user_io.zero, [(5, "root")], [], 0, 0⟩

/-- Test records for the ranker tie analysis: two equal-metric records and
one larger one. -/
def recT1 : user_io := ⟨1, 5, 0, 0, 0, 0, 0⟩

/-- Second equal-metric test record (same combined read as `recT1`). -/
def recT2 : user_io := ⟨2, 5, 0, 0, 0, 0, 0⟩

/-- Larger-metric test record. -/
def recT3 : user_io := ⟨3, 6, 0, 0, 0, 0, 0⟩

/-- Test state whose ranker arrays hold two all-zero slots. -/
def stRank2 : IoStats :=
  ⟨[], 0, 0, user_io.zero, List.replicate 2 user_io.zero,
    List.replicate 2 user_io.zero, [], [], 0, 0⟩

/-- Test line with a tab inside the first space-separated token. -/
def tabLine : String := "1\t2 3 4 5 6 7 8 9 10 11"

/-! ### Ranker analysis: the cascade projected to metric values -/

theorem cascade_map (m : user_io → Nat) (x : user_io) (arr : List user_io) :
    (cascade m x arr).map m = cascadeN (m x) (arr.map m) := by
  induction arr generalizing x with
  | nil => rfl
  | cons y ys ih =>
    by_cases h : m y < m x
    · simp [cascade, cascadeN, h, ih]
    · simp [cascade, cascadeN, h, ih]

theorem cascade_mem {m : user_io → Nat} {x : user_io} {arr : List user_io} {r : user_io}
    (hr : r ∈ cascade m x arr) : r = x ∨ r ∈ arr := by
  induction arr generalizing x with
  | nil => simp [cascade] at hr
  | cons y ys ih =>
    simp only [cascade] at hr
    split at hr
    · rcases List.mem_cons.mp hr with h1 | h1
      · exact Or.inl h1
      · rcases ih h1 with h2 | h2
        · exact Or.inr (h2 ▸ List.mem_cons_self y ys)
        · exact Or.inr (List.mem_cons_of_mem y h2)
    · rcases List.mem_cons.mp hr with h1 | h1
      · exact Or.inr (h1 ▸ List.mem_cons_self y ys)
      · rcases ih h1 with h2 | h2
        · exact Or.inl h2
        · exact Or.inr (List.mem_cons_of_mem y h2)

theorem cascade_zero (m : user_io → Nat) (x : user_io) (arr : List user_io)
    (hx : m x = 0) : cascade m x arr = arr := by
  induction arr generalizing x with
  | nil => rfl
  | cons y ys ih => simp [cascade, hx, ih x hx]

theorem mem_insDesc {x z : Nat} {l : List Nat} : z ∈ insDesc x l ↔ z = x ∨ z ∈ l := by
  induction l with
  | nil => simp [insDesc]
  | cons y ys ih =>
    by_cases h : y < x
    · simp only [insDesc, if_pos h, List.mem_cons]
    · simp only [insDesc, if_neg h, List.mem_cons, ih]
      tauto

theorem insDesc_sorted {x : Nat} {l : List Nat} (hl : l.Sorted (· ≥ ·)) :
    (insDesc x l).Sorted (· ≥ ·) := by
  induction l with
  | nil => simp [insDesc]
  | cons y ys ih =>
    rcases List.sorted_cons.mp hl with ⟨hy, hys⟩
    by_cases h : y < x
    · simp only [insDesc, if_pos h]
      refine List.sorted_cons.mpr ⟨?_, hl⟩
      intro b hb
      rcases List.mem_cons.mp hb with rfl | hb
      · omega
      · have := hy b hb
        omega
    · simp only [insDesc, if_neg h]
      refine List.sorted_cons.mpr ⟨?_, ih hys⟩
      intro b hb
      rcases mem_insDesc.mp hb with rfl | hb
      · omega
      · exact hy b hb

theorem foldl_insDesc_sorted (l : List Nat) (acc : List Nat) (hacc : acc.Sorted (· ≥ ·)) :
    (l.foldl (fun a x => insDesc x a) acc).Sorted (· ≥ ·) := by
  induction l generalizing acc with
  | nil => exact hacc
  | cons y ys ih => exact ih _ (insDesc_sorted hacc)

theorem sortDesc_sorted (l : List Nat) : (sortDesc l).Sorted (· ≥ ·) :=
  foldl_insDesc_sorted l [] (by simp)

theorem insDesc_perm (x : Nat) (l : List Nat) : List.Perm (insDesc x l) (x :: l) := by
  induction l with
  | nil => simp [insDesc]
  | cons y ys ih =>
    by_cases h : y < x
    · simp [insDesc, h]
    · simp only [insDesc, if_neg h]
      exact (ih.cons y).trans (List.Perm.swap x y ys)

theorem foldl_insDesc_perm (l : List Nat) (acc : List Nat) :
    List.Perm (l.foldl (fun a x => insDesc x a) acc) (acc ++ l) := by
  induction l generalizing acc with
  | nil => simp
  | cons y ys ih =>
    refine ((ih _).trans (((insDesc_perm y acc).append_right ys).trans ?_))
    exact (List.perm_middle).symm

theorem sortDesc_perm (l : List Nat) : List.Perm (sortDesc l) l := by
  simpa using foldl_insDesc_perm l []

theorem cascadeN_max (y : Nat) (ys : List Nat) (hmax : ∀ z ∈ ys, z ≤ y)
    (hs : ys.Sorted (· ≥ ·)) : cascadeN y ys = List.take ys.length (y :: ys) := by
  induction ys generalizing y with
  | nil => rfl
  | cons z zs ih =>
    rcases List.sorted_cons.mp hs with ⟨hz, hzs⟩
    have hzy : z ≤ y := hmax z (List.mem_cons_self z zs)
    by_cases h : z < y
    · simp only [cascadeN, if_pos h]
      rw [ih z hz hzs]
      simp
    · have hzeq : z = y := le_antisymm hzy (not_lt.mp h)
      subst hzeq
      simp only [cascadeN, if_neg h]
      rw [ih z hz hzs]
      simp

theorem cascadeN_eq_insert (x : Nat) (arr : List Nat) (hs : arr.Sorted (· ≥ ·)) :
    cascadeN x arr = List.take arr.length (insDesc x arr) := by
  induction arr generalizing x with
  | nil => rfl
  | cons y ys ih =>
    rcases List.sorted_cons.mp hs with ⟨hy, hys⟩
    by_cases h : y < x
    · simp only [cascadeN, insDesc, if_pos h]
      rw [cascadeN_max y ys hy hys]
      simp
    · simp only [cascadeN, insDesc, if_neg h]
      rw [ih x hys]
      simp

theorem take_insDesc_take (K : Nat) (x : Nat) (w : List Nat) :
    List.take K (insDesc x (List.take K w)) = List.take K (insDesc x w) := by
  induction w generalizing K with
  | nil => simp
  | cons y ws ih =>
    cases K with
    | zero => simp
    | succ K =>
      simp only [List.take_succ_cons]
      by_cases h : y < x
      · simp only [insDesc, if_pos h, List.take_succ_cons]
        cases K with
        | zero => simp
        | succ K' =>
          simp only [List.take_succ_cons]
          rw [List.take_take, Nat.min_eq_left (Nat.le_succ K')]
      · simp only [insDesc, if_neg h, List.take_succ_cons]
        rw [ih K]

theorem insDesc_zero_replicate (K : Nat) :
    insDesc 0 (List.replicate K 0) = List.replicate (K + 1) 0 := by
  induction K with
  | zero => rfl
  | succ K ih =>
    simp [List.replicate_succ, insDesc, ih]

theorem take_insDesc_pad (x : Nat) (s : List Nat) (n K : Nat) (hnK : n ≤ K) :
    List.take n (insDesc x (s ++ List.replicate K 0)) =
      List.take n (insDesc x s ++ List.replicate K 0) := by
  induction s generalizing n with
  | nil =>
    simp only [List.nil_append]
    by_cases hx : 0 < x
    · cases K with
      | zero => simp [insDesc]
      | succ K' =>
        simp [List.replicate_succ, insDesc, hx]
    · have hx0 : x = 0 := by omega
      subst hx0
      rw [insDesc_zero_replicate]
      simp [insDesc, ← List.replicate_succ]
  | cons y s ih =>
    by_cases h : y < x
    · simp [insDesc, h]
    · simp only [List.cons_append, insDesc, if_neg h]
      cases n with
      | zero => simp
      | succ n' =>
        simp only [List.take_succ_cons, List.append_eq]
        rw [ih n' (by omega)]

theorem replicate_zero_sorted (K : Nat) : (List.replicate K (0 : Nat)).Sorted (· ≥ ·) := by
  induction K with
  | zero => simp
  | succ K ih =>
    rw [List.replicate_succ]
    refine List.sorted_cons.mpr ⟨?_, ih⟩
    intro b hb
    have := List.eq_of_mem_replicate hb
    omega

theorem sorted_pad (s : List Nat) (K : Nat) (hs : s.Sorted (· ≥ ·)) :
    (s ++ List.replicate K 0).Sorted (· ≥ ·) := by
  rw [List.Sorted, List.pairwise_append]
  refine ⟨hs, replicate_zero_sorted K, ?_⟩
  intro a _ b hb
  have := List.eq_of_mem_replicate hb
  omega

theorem foldl_cascadeN_eq (K : Nat) (ys : List Nat) :
    ys.foldl (fun arr y => cascadeN y arr) (List.replicate K 0) =
      List.take K (sortDesc ys ++ List.replicate K 0) := by
  induction ys using List.reverseRecOn with
  | nil => simp [sortDesc, List.take_replicate]
  | append_singleton ys y ih =>
    rw [List.foldl_append, List.foldl_cons, List.foldl_nil, ih]
    have hsort : (sortDesc ys ++ List.replicate K 0).Sorted (· ≥ ·) :=
      sorted_pad _ _ (sortDesc_sorted ys)
    have htake : (List.take K (sortDesc ys ++ List.replicate K 0)).Sorted (· ≥ ·) :=
      List.Pairwise.sublist (List.take_sublist _ _) hsort
    have hlen : (List.take K (sortDesc ys ++ List.replicate K 0)).length = K := by
      simp [List.length_take]
    rw [cascadeN_eq_insert _ _ htake, hlen, take_insDesc_take,
      take_insDesc_pad _ _ K K le_rfl]
    have hsd : sortDesc (ys ++ [y]) = insDesc y (sortDesc ys) := by
      simp only [sortDesc, List.foldl_append, List.foldl_cons, List.foldl_nil]
    rw [hsd]

theorem offerStep_foldl_readTop (st : IoStats) (calls : List (Bool × user_io)) :
    (calls.foldl offerStep st).mReadTop =
      ((calls.filter (fun c => c.1)).map (fun c => c.2)).foldl
        (fun arr x => cascade io_sum_read x arr) st.mReadTop := by
  induction calls generalizing st with
  | nil => rfl
  | cons c cs ih =>
    rw [List.foldl_cons, ih]
    cases hc : c.1 with
    | false => simp [List.filter_cons, hc, offerStep, updateTopWrite]
    | true => simp [List.filter_cons, hc, offerStep, updateTopRead]

theorem offerStep_foldl_writeTop (st : IoStats) (calls : List (Bool × user_io)) :
    (calls.foldl offerStep st).mWriteTop =
      ((calls.filter (fun c => !c.1)).map (fun c => c.2)).foldl
        (fun arr x => cascade io_sum_write x arr) st.mWriteTop := by
  induction calls generalizing st with
  | nil => rfl
  | cons c cs ih =>
    rw [List.foldl_cons, ih]
    cases hc : c.1 with
    | false => simp [List.filter_cons, hc, offerStep, updateTopWrite]
    | true => simp [List.filter_cons, hc, offerStep, updateTopRead]

theorem foldl_cascade_mem {m : user_io → Nat} {xs : List user_io} {arr : List user_io}
    {r : user_io} (hr : r ∈ xs.foldl (fun a x => cascade m x a) arr) :
    r ∈ xs ∨ r ∈ arr := by
  induction xs generalizing arr with
  | nil => exact Or.inr hr
  | cons x xs ih =>
    rcases ih hr with h | h
    · exact Or.inl (List.mem_cons_of_mem x h)
    · rcases cascade_mem h with h2 | h2
      · exact Or.inl (h2 ▸ List.mem_cons_self x xs)
      · exact Or.inr h2

theorem foldl_cascade_map (m : user_io → Nat) (xs : List user_io) (arr : List user_io) :
    (xs.foldl (fun a x => cascade m x a) arr).map m =
      (xs.map m).foldl (fun a y => cascadeN y a) (arr.map m) := by
  induction xs generalizing arr with
  | nil => rfl
  | cons x xs ih => simp only [List.foldl_cons, List.map_cons, ih, cascade_map]

/-- Claim C1 (amended): starting from all-zero K-slot arrays, after any
sequence of offer calls (`updateTopRead` for the read metric,
`updateTopWrite` for the write metric) each ranker array holds records in
descending order of its metric whose metrics are exactly the K largest
metrics offered to it (zero-padded when fewer), and every retained record
is one of the records offered to that ranker or a zero filler.  The
original tie-break clause (earlier-offered record wins) does not hold — see
the counterexample — so this statement pins down the metric multiset and
the order, not which of several equal-metric records survives. -/
theorem updateTop_top_k (st : IoStats) (K : Nat) (calls : List (Bool × user_io))
    (hR : st.mReadTop = List.replicate K user_io.zero)
    (hW : st.mWriteTop = List.replicate K user_io.zero) :
    ((calls.foldl offerStep st).mReadTop.map io_sum_read =
        List.take K (sortDesc (((calls.filter (fun c => c.1)).map (fun c => c.2)).map io_sum_read) ++
          List.replicate K 0)
      ∧ ((calls.foldl offerStep st).mReadTop.map io_sum_read).Sorted (· ≥ ·)
      ∧ ∀ r ∈ (calls.foldl offerStep st).mReadTop,
          r ∈ (calls.filter (fun c => c.1)).map (fun c => c.2) ∨ r = user_io.zero)
    ∧ ((calls.foldl offerStep st).mWriteTop.map io_sum_write =
        List.take K (sortDesc (((calls.filter (fun c => !c.1)).map (fun c => c.2)).map io_sum_write) ++
          List.replicate K 0)
      ∧ ((calls.foldl offerStep st).mWriteTop.map io_sum_write).Sorted (· ≥ ·)
      ∧ ∀ r ∈ (calls.foldl offerStep st).mWriteTop,
          r ∈ (calls.filter (fun c => !c.1)).map (fun c => c.2) ∨ r = user_io.zero) := by
  have hzR : (List.replicate K user_io.zero).map io_sum_read = List.replicate K 0 := by
    simp [io_sum_read, user_io.zero, add64]
  have hzW : (List.replicate K user_io.zero).map io_sum_write = List.replicate K 0 := by
    simp [io_sum_write, user_io.zero, add64]
  refine ⟨⟨?_, ?_, ?_⟩, ?_, ?_, ?_⟩
  · rw [offerStep_foldl_readTop, hR, foldl_cascade_map, hzR, foldl_cascadeN_eq]
  · rw [offerStep_foldl_readTop, hR, foldl_cascade_map, hzR, foldl_cascadeN_eq]
    exact List.Pairwise.sublist (List.take_sublist _ _)
      (sorted_pad _ _ (sortDesc_sorted _))
  · intro r hr
    rw [offerStep_foldl_readTop, hR] at hr
    rcases foldl_cascade_mem hr with h | h
    · exact Or.inl h
    · exact Or.inr (List.eq_of_mem_replicate h)
  · rw [offerStep_foldl_writeTop, hW, foldl_cascade_map, hzW, foldl_cascadeN_eq]
  · rw [offerStep_foldl_writeTop, hW, foldl_cascade_map, hzW, foldl_cascadeN_eq]
    exact List.Pairwise.sublist (List.take_sublist _ _)
      (sorted_pad _ _ (sortDesc_sorted _))
  · intro r hr
    rw [offerStep_foldl_writeTop, hW] at hr
    rcases foldl_cascade_mem hr with h | h
    · exact Or.inl h
    · exact Or.inr (List.eq_of_mem_replicate h)

/-- Claim C1 counterexample: with two slots, offering two equal-metric
records (`recT1` then `recT2`, both combined read 5) and then a larger one
(`recT3`, combined read 6) leaves `[recT3, recT2]` in the array: the
earlier-offered `recT1` was displaced from slot 0 by `recT3` and cascaded
past its equal `recT2`, falling off the end.  The claimed result — ties
broken in favor of the earlier-offered record, here `[recT3, recT1]`
(the specification-side `specTopStable`) — differs. -/
theorem updateTop_tie_break_counterexample :
    ([(true, recT1), (true, recT2), (true, recT3)].foldl offerStep stRank2).mReadTop ≠
        specTopStable io_sum_read 2 [recT1, recT2, recT3]
      ∧ recT2 ∈ ([(true, recT1), (true, recT2), (true, recT3)].foldl offerStep stRank2).mReadTop
      ∧ recT1 ∉ ([(true, recT1), (true, recT2), (true, recT3)].foldl offerStep stRank2).mReadTop
      ∧ io_sum_read recT1 = io_sum_read recT2 := by
  decide

/-- Witness instantiating the amended ranker theorem at a concrete
two-offer sequence. -/
theorem updateTop_top_k_witness :
    (([(true, recT3), (false, recT1)].foldl offerStep stRank2).mReadTop.map io_sum_read =
        List.take 2 (sortDesc ((([(true, recT3), (false, recT1)].filter (fun c => c.1)).map (fun c => c.2)).map io_sum_read) ++
          List.replicate 2 0)
      ∧ (([(true, recT3), (false, recT1)].foldl offerStep stRank2).mReadTop.map io_sum_read).Sorted (· ≥ ·)
      ∧ ∀ r ∈ ([(true, recT3), (false, recT1)].foldl offerStep stRank2).mReadTop,
          r ∈ ([(true, recT3), (false, recT1)].filter (fun c => c.1)).map (fun c => c.2) ∨ r = user_io.zero)
    ∧ (([(true, recT3), (false, recT1)].foldl offerStep stRank2).mWriteTop.map io_sum_write =
        List.take 2 (sortDesc ((([(true, recT3), (false, recT1)].filter (fun c => !c.1)).map (fun c => c.2)).map io_sum_write) ++
          List.replicate 2 0)
      ∧ (([(true, recT3), (false, recT1)].foldl offerStep stRank2).mWriteTop.map io_sum_write).Sorted (· ≥ ·)
      ∧ ∀ r ∈ ([(true, recT3), (false, recT1)].foldl offerStep stRank2).mWriteTop,
          r ∈ ([(true, recT3), (false, recT1)].filter (fun c => !c.1)).map (fun c => c.2) ∨ r = user_io.zero) :=
  updateTop_top_k stRank2 2 [(true, recT3), (false, recT1)] rfl rfl

/-- Claim C10: calling `setOptions` with key `iostats.disabled` leaves the
whole configuration state unchanged for every value — the outer key filter
does not admit that key, so the inner branch assigning the disabled flag is
unreachable; moreover no key whatsoever changes `sDisabled` through
`setOptions`, so `refresh` can never be turned off this way. -/
theorem setOptions_disabled_dead :
    (∀ (u : io_usage) (value : String), setOptions u "iostats.disabled" value = u)
    ∧ ∀ (u : io_usage) (key value : String),
        (setOptions u key value).sDisabled = u.sDisabled := by
  constructor
  · intro u value
    unfold setOptions
    rw [if_neg (by decide)]
  · intro u key value
    unfold setOptions
    split
    · next hk =>
      cases hv : parseUintN W64 value with
      | none => rfl
      | some val => rcases hk with rfl | rfl | rfl | rfl <;> simp
    · rfl

/-- Claim C9 (code-bug evidence): for value 1000 and buffer size 5 both
size checks of `print_num` pass (`len + 1 = 5 ≤ size` and
`endpos = 5 ≤ size`, because the second check uses `>` instead of `>=`),
yet the terminating NUL is stored at index `endpos = 5 = size`, one past
the last valid index of the buffer — not every written index is strictly
below the size, and `false` is not returned. -/
theorem print_num_oob :
    print_num_writes 1000 5 =
        some [(5, Char.ofNat 0), (4, '0'), (3, '0'), (2, '0'), (1, ','), (0, '1')]
      ∧ (((print_num_writes 1000 5).getD []).all (fun p => p.1 < 5)) = false
      ∧ numDigits 1000 = 4 := by
  decide

/-- Claim C4 counterexample: with both totals (zero) below both thresholds
(1000), the dump is not only the total line: the two threshold-skip notices
follow it. -/
theorem dump_skip_lines_counterexample :
    io_sum_read stDump.mTotal < stDump.mMinSizeOfTotalRead
      ∧ io_sum_write stDump.mTotal < stDump.mMinSizeOfTotalWrite
      ∧ dumpLines stDump =
          [DumpLine.total 10 0 0 0, DumpLine.skipRead 0 0, DumpLine.skipWrite 0 0]
      ∧ dumpLines stDump ≠ [DumpLine.total 10 0 0 0] := by
  decide

/-- Claim C4 (amended): whenever Total's combined read is below the read
threshold and its combined write is below the write threshold, the dump is
exactly the total line followed by the read skip notice and the write skip
notice — no header line and no per-rank entries, but not the total line
alone. -/
theorem dump_below_thresholds (st : IoStats)
    (hr : io_sum_read st.mTotal < st.mMinSizeOfTotalRead)
    (hw : io_sum_write st.mTotal < st.mMinSizeOfTotalWrite) :
    dumpLines st =
      [DumpLine.total (st.mNow - st.mLast) (io_sum_read st.mTotal) (io_sum_write st.mTotal)
          (add64 st.mTotal.fg_fsync st.mTotal.bg_fsync),
        DumpLine.skipRead (io_sum_read st.mTotal) (st.mMinSizeOfTotalRead / 1000000),
        DumpLine.skipWrite (io_sum_write st.mTotal) (st.mMinSizeOfTotalWrite / 1000000)] := by
  simp only [dumpLines]
  rw [if_neg (by omega), if_pos hr, if_pos hw]
  rfl

/-- Witness instantiating the amended threshold-gating theorem at the
below-threshold test state. -/
theorem dump_below_thresholds_witness :
    dumpLines stDump =
      [DumpLine.total (stDump.mNow - stDump.mLast) (io_sum_read stDump.mTotal)
          (io_sum_write stDump.mTotal) (add64 stDump.mTotal.fg_fsync stDump.mTotal.bg_fsync),
        DumpLine.skipRead (io_sum_read stDump.mTotal) (stDump.mMinSizeOfTotalRead / 1000000),
        DumpLine.skipWrite (io_sum_write stDump.mTotal) (stDump.mMinSizeOfTotalWrite / 1000000)] :=
  dump_below_thresholds stDump (by decide) (by decide)

/-- Claim C2 (code-bug evidence): on the seeding tick the source moves
`data` into `mPrevious` and then iterates the moved-from (empty) map, so
with a non-empty snapshot containing a resolvable application uid nothing
is added to the pending list and nothing is dispatched to the resolver: the
resulting state only stores the snapshot and advances the timestamps, the
name cache stays empty and the dispatch trace is empty.  (Total and the
ranker arrays are untouched, as claimed.) -/
theorem calcAll_seeding_move_bug :
    (calcAll envFix stSeed [recA] 9).1 =
        { stSeed with mPrevious := [recA], mLast := 7, mNow := 9 }
      ∧ (calcAll envFix stSeed [recA] 9).2 = ([], false)
      ∧ envFix.procName recA.uid = some "a"
      ∧ isAppUid recA.uid = true
      ∧ io_sum_read recA ≠ 0 := by
  decide

/-- Claim C5 (code-bug evidence): draining the pending list
`[10001, 10002, 10003]` with all three uids resolvable dispatches 10001,
then — the erase having shifted the vector — index 1 already holds 10003,
so 10002 is never dispatched, and index 2 runs past the shrunk vector (the
out-of-bounds access the model flags).  The pending list is cleared as
claimed, but not every pending identity was dispatched, and none exactly
once is also violated for collection reads past the end. -/
theorem updateUnknownUidList_skips_pending :
    (updateUnknownUidList envFix stPend).2 = ([(10001, true), (10003, true)], true)
      ∧ (updateUnknownUidList envFix stPend).1.mUidNameMap = [(10001, "a"), (10003, "c")]
      ∧ (updateUnknownUidList envFix stPend).1.mUnknownUidList = []
      ∧ stPend.mUnknownUidList = [10001, 10002, 10003]
      ∧ envFix.procName 10002 = some "b"
      ∧ (((updateUnknownUidList envFix stPend).2.1).all (fun p => p.1 != 10002)) = true := by
  decide

/-! ### Interval aggregator analysis -/

theorem W64_pos : 0 < W64 := by decide

theorem foldl_calcStep_total (l : List user_io) (s : IoStats) :
    (l.foldl calcStep s).mTotal = l.foldl userIoAdd s.mTotal := by
  induction l generalizing s with
  | nil => rfl
  | cons d l ih =>
    rw [List.foldl_cons, List.foldl_cons, ih]
    rfl

theorem foldl_calcStep_readTop (l : List user_io) (s : IoStats) :
    (l.foldl calcStep s).mReadTop =
      l.foldl (fun arr d => cascade io_sum_read d arr) s.mReadTop := by
  induction l generalizing s with
  | nil => rfl
  | cons d l ih =>
    rw [List.foldl_cons, List.foldl_cons, ih]
    rfl

theorem foldl_calcStep_writeTop (l : List user_io) (s : IoStats) :
    (l.foldl calcStep s).mWriteTop =
      l.foldl (fun arr d => cascade io_sum_write d arr) s.mWriteTop := by
  induction l generalizing s with
  | nil => rfl
  | cons d l ih =>
    rw [List.foldl_cons, List.foldl_cons, ih]
    rfl

theorem foldl_calcStep_nameMap (l : List user_io) (s : IoStats) :
    (l.foldl calcStep s).mUidNameMap = s.mUidNameMap := by
  induction l generalizing s with
  | nil => rfl
  | cons d l ih =>
    rw [List.foldl_cons, ih]
    rfl

theorem foldl_calcStep_pending (l : List user_io) (s : IoStats) :
    (l.foldl calcStep s).mUnknownUidList = s.mUnknownUidList := by
  induction l generalizing s with
  | nil => rfl
  | cons d l ih =>
    rw [List.foldl_cons, ih]
    rfl

theorem incDiff_uid (prev : List user_io) (d : user_io) : (incDiff prev d).uid = d.uid := by
  unfold incDiff
  cases lookupSnap prev d.uid with
  | none => rfl
  | some p => rfl

theorem foldl_assocSetIo_eq_append (prev : List user_io) (data : List user_io)
    (acc : List user_io) (hnd : (data.map user_io.uid).Nodup)
    (hdis : ∀ d ∈ data, ∀ e ∈ acc, e.uid ≠ d.uid) :
    data.foldl (fun a d => assocSetIo a (incDiff prev d)) acc =
      acc ++ data.map (incDiff prev) := by
  induction data generalizing acc with
  | nil => simp
  | cons d rest ih =>
    have hnd' : (∀ x ∈ rest, ¬x.uid = d.uid) ∧ (rest.map user_io.uid).Nodup := by
      simpa using hnd
    rw [List.foldl_cons]
    have hany : (acc.any (fun e => e.uid == (incDiff prev d).uid)) = false := by
      rw [List.any_eq_false]
      intro e he
      simp only [incDiff_uid, beq_eq_false_iff_ne, ne_eq, Bool.not_eq_true, beq_iff_eq]
      exact hdis d (List.mem_cons_self d rest) e he
    have hset : assocSetIo acc (incDiff prev d) = acc ++ [incDiff prev d] := by
      simp [assocSetIo, hany]
    have hdis2 : ∀ d' ∈ rest, ∀ e ∈ acc ++ [incDiff prev d], e.uid ≠ d'.uid := by
      intro d' hd' e he
      rcases List.mem_append.mp he with he | he
      · exact hdis d' (List.mem_cons_of_mem d hd') e he
      · have he' : e = incDiff prev d := by simpa using he
        rw [he', incDiff_uid]
        intro hEq
        exact hnd'.1 d' hd' hEq.symm
    rw [hset, ih (acc ++ [incDiff prev d]) hnd'.2 hdis2]
    simp

theorem calcIncrementDiffs_eq_map (prev : List user_io) (data : List user_io)
    (hnd : (data.map user_io.uid).Nodup) :
    calcIncrementDiffs prev data = data.map (incDiff prev) := by
  unfold calcIncrementDiffs
  rw [foldl_assocSetIo_eq_append prev data [] hnd (by simp)]
  simp

theorem foldl_userIoAdd_field (f : user_io → Nat)
    (hf : ∀ a b, f (userIoAdd a b) = add64 (f a) (f b))
    (l : List user_io) (a : user_io) (ha : f a < W64) :
    f (l.foldl userIoAdd a) = (f a + (l.map f).sum) % W64 := by
  induction l generalizing a with
  | nil => simpa using (Nat.mod_eq_of_lt ha).symm
  | cons d l ih =>
    rw [List.foldl_cons, ih (userIoAdd a d) (by rw [hf]; exact Nat.mod_lt _ W64_pos), hf]
    simp only [List.map_cons, List.sum_cons, add64]
    rw [Nat.mod_add_mod, Nat.add_assoc]

/-- Claim C3: on every initialized tick, the delta of an owner equals the
record minus the previous snapshot's record for that owner (field-wise,
wrapping) when the owner was present, and the record unchanged otherwise;
the diff map built by `calcIncrement` is exactly these per-owner deltas;
and after the tick Total is the field-wise (wrapping) sum of exactly these
deltas. -/
theorem calcAll_conservation (env : Env) (st : IoStats) (data : List user_io) (now : Nat)
    (hinit : st.mLast ≠ st.mNow) (hnd : (data.map user_io.uid).Nodup) :
    (∀ d ∈ data, ∀ p, lookupSnap st.mPrevious d.uid = some p →
        incDiff st.mPrevious d = userIoSub d p)
      ∧ (∀ d ∈ data, lookupSnap st.mPrevious d.uid = none → incDiff st.mPrevious d = d)
      ∧ calcIncrementDiffs st.mPrevious data = data.map (incDiff st.mPrevious)
      ∧ (calcAll env st data now).1.mTotal =
          (data.map (incDiff st.mPrevious)).foldl userIoAdd user_io.zero
      ∧ (calcAll env st data now).1.mTotal.fg_read =
          ((data.map (incDiff st.mPrevious)).map user_io.fg_read).sum % W64
      ∧ (calcAll env st data now).1.mTotal.fg_write =
          ((data.map (incDiff st.mPrevious)).map user_io.fg_write).sum % W64
      ∧ (calcAll env st data now).1.mTotal.bg_read =
          ((data.map (incDiff st.mPrevious)).map user_io.bg_read).sum % W64
      ∧ (calcAll env st data now).1.mTotal.bg_write =
          ((data.map (incDiff st.mPrevious)).map user_io.bg_write).sum % W64
      ∧ (calcAll env st data now).1.mTotal.fg_fsync =
          ((data.map (incDiff st.mPrevious)).map user_io.fg_fsync).sum % W64
      ∧ (calcAll env st data now).1.mTotal.bg_fsync =
          ((data.map (incDiff st.mPrevious)).map user_io.bg_fsync).sum % W64 := by
  have hcalc : calcAll env st data now = calcAllRun env st data now := by
    unfold calcAll
    rw [if_neg hinit]
  have htot : (calcAll env st data now).1.mTotal =
      (data.map (incDiff st.mPrevious)).foldl userIoAdd user_io.zero := by
    rw [hcalc]
    simp only [calcAllRun]
    rw [foldl_calcStep_total]
    rw [calcIncrementDiffs_eq_map _ _ hnd]
  refine ⟨?_, ?_, calcIncrementDiffs_eq_map _ _ hnd, htot, ?_, ?_, ?_, ?_, ?_, ?_⟩
  · intro d _ p hp
    simp [incDiff, hp]
  · intro d _ hp
    simp [incDiff, hp]
  · rw [htot, foldl_userIoAdd_field user_io.fg_read (fun a b => rfl) _ _ (by decide)]
    simp [user_io.zero]
  · rw [htot, foldl_userIoAdd_field user_io.fg_write (fun a b => rfl) _ _ (by decide)]
    simp [user_io.zero]
  · rw [htot, foldl_userIoAdd_field user_io.bg_read (fun a b => rfl) _ _ (by decide)]
    simp [user_io.zero]
  · rw [htot, foldl_userIoAdd_field user_io.bg_write (fun a b => rfl) _ _ (by decide)]
    simp [user_io.zero]
  · rw [htot, foldl_userIoAdd_field user_io.fg_fsync (fun a b => rfl) _ _ (by decide)]
    simp [user_io.zero]
  · rw [htot, foldl_userIoAdd_field user_io.bg_fsync (fun a b => rfl) _ _ (by decide)]
    simp [user_io.zero]

/-- Witness instantiating the conservation theorem at a concrete
initialized tick. -/
theorem calcAll_conservation_witness :
    (∀ d ∈ [recA], ∀ p, lookupSnap stTick.mPrevious d.uid = some p →
        incDiff stTick.mPrevious d = userIoSub d p)
      ∧ (∀ d ∈ [recA], lookupSnap stTick.mPrevious d.uid = none → incDiff stTick.mPrevious d = d)
      ∧ calcIncrementDiffs stTick.mPrevious [recA] = [recA].map (incDiff stTick.mPrevious)
      ∧ (calcAll envFix stTick [recA] 11).1.mTotal =
          ([recA].map (incDiff stTick.mPrevious)).foldl userIoAdd user_io.zero
      ∧ (calcAll envFix stTick [recA] 11).1.mTotal.fg_read =
          (([recA].map (incDiff stTick.mPrevious)).map user_io.fg_read).sum % W64
      ∧ (calcAll envFix stTick [recA] 11).1.mTotal.fg_write =
          (([recA].map (incDiff stTick.mPrevious)).map user_io.fg_write).sum % W64
      ∧ (calcAll envFix stTick [recA] 11).1.mTotal.bg_read =
          (([recA].map (incDiff stTick.mPrevious)).map user_io.bg_read).sum % W64
      ∧ (calcAll envFix stTick [recA] 11).1.mTotal.bg_write =
          (([recA].map (incDiff stTick.mPrevious)).map user_io.bg_write).sum % W64
      ∧ (calcAll envFix stTick [recA] 11).1.mTotal.fg_fsync =
          (([recA].map (incDiff stTick.mPrevious)).map user_io.fg_fsync).sum % W64
      ∧ (calcAll envFix stTick [recA] 11).1.mTotal.bg_fsync =
          (([recA].map (incDiff stTick.mPrevious)).map user_io.bg_fsync).sum % W64 :=
  calcAll_conservation envFix stTick [recA] 11 (by decide) (by decide)

theorem sub64_self (x : Nat) : sub64 x x = 0 := by
  unfold sub64
  rw [Nat.add_sub_cancel' (le_of_lt (Nat.mod_lt x W64_pos))]
  exact Nat.mod_self W64

theorem userIoSub_self (d : user_io) : userIoSub d d = ⟨d.uid, 0, 0, 0, 0, 0, 0⟩ := by
  simp [userIoSub, sub64_self]

theorem lookupSnap_self (data : List user_io) (d : user_io)
    (hnd : (data.map user_io.uid).Nodup) (hd : d ∈ data) :
    lookupSnap data d.uid = some d := by
  induction data with
  | nil => cases hd
  | cons e rest ih =>
    have hnd' : (∀ x ∈ rest, ¬x.uid = e.uid) ∧ (rest.map user_io.uid).Nodup := by
      simpa using hnd
    rcases List.mem_cons.mp hd with h | h
    · subst h
      simp [lookupSnap, List.find?]
    · have hne : (e.uid == d.uid) = false := by
        simp only [beq_eq_false_iff_ne, ne_eq]
        intro hEq
        exact hnd'.1 d h hEq.symm
      unfold lookupSnap at ih ⊢
      rw [List.find?]
      rw [hne]
      exact ih hnd'.2 h

theorem foldl_userIoAdd_zeroFields (l : List user_io)
    (h : ∀ x ∈ l, x.fg_read = 0 ∧ x.fg_write = 0 ∧ x.bg_read = 0 ∧ x.bg_write = 0 ∧
      x.fg_fsync = 0 ∧ x.bg_fsync = 0) :
    l.foldl userIoAdd user_io.zero = user_io.zero := by
  induction l with
  | nil => rfl
  | cons x l ih =>
    rw [List.foldl_cons]
    obtain ⟨h1, h2, h3, h4, h5, h6⟩ := h x (List.mem_cons_self x l)
    have hx : userIoAdd user_io.zero x = user_io.zero := by
      simp [userIoAdd, user_io.zero, add64, h1, h2, h3, h4, h5, h6]
    rw [hx]
    exact ih (fun y hy => h y (List.mem_cons_of_mem x hy))

theorem foldl_cascade_zeroMetric (m : user_io → Nat) (l : List user_io) (arr : List user_io)
    (h : ∀ x ∈ l, m x = 0) :
    l.foldl (fun a x => cascade m x a) arr = arr := by
  induction l generalizing arr with
  | nil => rfl
  | cons x l ih =>
    rw [List.foldl_cons, cascade_zero m x arr (h x (List.mem_cons_self x l))]
    exact ih arr (fun y hy => h y (List.mem_cons_of_mem x hy))

/-- Claim C7: ingesting the same snapshot twice in a row (an initialized
state whose previous snapshot equals the incoming snapshot) leaves Total
equal to the zero record and both ranker arrays all-zero after the call. -/
theorem calcAll_zero_delta (env : Env) (st : IoStats) (data : List user_io) (now : Nat)
    (hinit : st.mLast ≠ st.mNow) (hprev : st.mPrevious = data)
    (hnd : (data.map user_io.uid).Nodup) :
    (calcAll env st data now).1.mTotal = user_io.zero
      ∧ (calcAll env st data now).1.mReadTop = List.replicate IO_TOP_MAX user_io.zero
      ∧ (calcAll env st data now).1.mWriteTop = List.replicate IO_TOP_MAX user_io.zero := by
  have hdiffs : ∀ d ∈ data, incDiff st.mPrevious d = ⟨d.uid, 0, 0, 0, 0, 0, 0⟩ := by
    intro d hd
    rw [hprev]
    unfold incDiff
    rw [lookupSnap_self data d hnd hd]
    exact userIoSub_self d
  have hcalc : calcAll env st data now = calcAllRun env st data now := by
    unfold calcAll
    rw [if_neg hinit]
  have hzf : ∀ x ∈ data.map (incDiff st.mPrevious), x.fg_read = 0 ∧ x.fg_write = 0 ∧
      x.bg_read = 0 ∧ x.bg_write = 0 ∧ x.fg_fsync = 0 ∧ x.bg_fsync = 0 := by
    intro x hx
    rcases List.mem_map.mp hx with ⟨d, hd, rfl⟩
    rw [hdiffs d hd]
    exact ⟨rfl, rfl, rfl, rfl, rfl, rfl⟩
  refine ⟨?_, ?_, ?_⟩
  · rw [hcalc]
    simp only [calcAllRun]
    rw [foldl_calcStep_total, calcIncrementDiffs_eq_map _ _ hnd]
    exact foldl_userIoAdd_zeroFields _ hzf
  · rw [hcalc]
    simp only [calcAllRun]
    rw [foldl_calcStep_readTop, calcIncrementDiffs_eq_map _ _ hnd]
    refine foldl_cascade_zeroMetric _ _ _ ?_
    intro x hx
    obtain ⟨h1, _, h3, _, _, _⟩ := hzf x hx
    simp [io_sum_read, h1, h3, add64]
  · rw [hcalc]
    simp only [calcAllRun]
    rw [foldl_calcStep_writeTop, calcIncrementDiffs_eq_map _ _ hnd]
    refine foldl_cascade_zeroMetric _ _ _ ?_
    intro x hx
    obtain ⟨_, h2, _, h4, _, _⟩ := hzf x hx
    simp [io_sum_write, h2, h4, add64]

/-- Witness instantiating the zero-delta theorem at a concrete repeated
snapshot. -/
theorem calcAll_zero_delta_witness :
    (calcAll envFix stTick [recA] 11).1.mTotal = user_io.zero
      ∧ (calcAll envFix stTick [recA] 11).1.mReadTop = List.replicate IO_TOP_MAX user_io.zero
      ∧ (calcAll envFix stTick [recA] 11).1.mWriteTop = List.replicate IO_TOP_MAX user_io.zero :=
  calcAll_zero_delta envFix stTick [recA] 11 (by decide) rfl (by decide)

/-! ### Name-cache analysis -/

theorem lookupName_mapSet_ne (m : List (Nat × String)) (k u : Nat) (v : String) (h : k ≠ u) :
    lookupName (m.map (fun p => if p.1 == k then (k, v) else p)) u = lookupName m u := by
  induction m with
  | nil => rfl
  | cons p rest ih =>
    unfold lookupName at ih ⊢
    rw [List.map_cons]
    by_cases hp : p.1 = k
    · have hif : (if p.1 == k then (k, v) else p) = (k, v) := by simp [hp]
      rw [hif, List.find?_cons_of_neg _ (by simp [h]),
        List.find?_cons_of_neg _ (by simp [hp, h])]
      exact ih
    · have hif : (if p.1 == k then (k, v) else p) = p := by simp [hp]
      rw [hif]
      by_cases hu : p.1 = u
      · rw [List.find?_cons_of_pos _ (by simp [hu]), List.find?_cons_of_pos _ (by simp [hu])]
      · rw [List.find?_cons_of_neg _ (by simp [hu]), List.find?_cons_of_neg _ (by simp [hu])]
        exact ih

theorem lookupName_append_single_ne (m : List (Nat × String)) (k u : Nat) (v : String)
    (h : k ≠ u) : lookupName (m ++ [(k, v)]) u = lookupName m u := by
  unfold lookupName
  rw [List.find?_append]
  have hnone : List.find? (fun p => p.1 == u) [(k, v)] = none := by simp [h]
  rw [hnone, Option.or_none]

theorem lookupName_assocSet_ne (m : List (Nat × String)) (k u : Nat) (v : String)
    (h : k ≠ u) : lookupName (assocSet m k v) u = lookupName m u := by
  unfold assocSet
  split
  · exact lookupName_mapSet_ne m k u v h
  · exact lookupName_append_single_ne m k u v h

theorem drainStep_lookup_ne (env : Env) (uid : Nat) (map : List (Nat × String)) (u : Nat)
    (h : uid ≠ u) : lookupName (drainStep env uid map).1 u = lookupName map u := by
  unfold drainStep
  cases ha : isAppUid uid with
  | true =>
    simp only [ha, if_true]
    cases env.procName uid with
    | none => rfl
    | some n => exact lookupName_assocSet_ne map uid u n h
  | false =>
    simp only [ha, Bool.false_eq_true, if_false]
    cases env.pwName uid with
    | none => rfl
    | some n => exact lookupName_assocSet_ne map uid u n h

theorem drainLoop_lookup_preserved (env : Env) (steps : Nat) :
    ∀ (i : Nat) (v : List Nat) (map : List (Nat × String)) (tr : List (Nat × Bool))
      (oob : Bool) (u : Nat) (n : String),
      (∀ w ∈ v, w ≠ u) → lookupName map u = some n →
      lookupName (drainLoop env steps i v map tr oob).2.1 u = some n := by
  induction steps with
  | zero =>
    intro i v map tr oob u n _ hl
    exact hl
  | succ steps ih =>
    intro i v map tr oob u n hv hl
    simp only [drainLoop]
    cases hg : v.get? i with
    | none => exact ih (i + 1) v map tr true u n hv hl
    | some uid =>
      have hne : uid ≠ u := hv uid (List.get?_mem hg)
      refine ih (i + 1) _ _ _ _ u n ?_ ?_
      · intro w hw
        by_cases hres : (drainStep env uid map).2 = true
        · rw [if_pos hres] at hw
          exact hv w (List.mem_of_mem_filter hw)
        · rw [if_neg hres] at hw
          exact hv w hw
      · rw [drainStep_lookup_ne env uid map u hne]
        exact hl

theorem updateUnknownUidList_pending (env : Env) (st : IoStats) :
    (updateUnknownUidList env st).1.mUnknownUidList = [] := by
  unfold updateUnknownUidList
  split
  · next h => exact h
  · rfl

theorem updateUnknownUidList_lookup (env : Env) (st : IoStats) (u : Nat) (n : String)
    (hv : ∀ w ∈ st.mUnknownUidList, w ≠ u)
    (hl : lookupName st.mUidNameMap u = some n) :
    lookupName (updateUnknownUidList env st).1.mUidNameMap u = some n := by
  unfold updateUnknownUidList
  split
  · exact hl
  · exact drainLoop_lookup_preserved env st.mUnknownUidList.length 0 st.mUnknownUidList
      st.mUidNameMap [] false u n hv hl

theorem mem_calcIncrementPending (prev : List user_io) (nameMap : List (Nat × String))
    (data : List user_io) (w : Nat) (hw : w ∈ calcIncrementPending prev nameMap data) :
    lookupName nameMap w = none := by
  unfold calcIncrementPending at hw
  rcases List.mem_map.mp hw with ⟨d, hd, rfl⟩
  have hf := (List.mem_filter.mp hd).2
  simp only [Bool.and_eq_true, Option.isNone_iff_eq_none] at hf
  exact hf.2

theorem calcAll_lookup_mono (env : Env) (st : IoStats) (data : List user_io) (now : Nat)
    (u : Nat) (n : String) (hp : st.mUnknownUidList = [])
    (hl : lookupName st.mUidNameMap u = some n) :
    lookupName (calcAll env st data now).1.mUidNameMap u = some n
      ∧ (calcAll env st data now).1.mUnknownUidList = [] := by
  unfold calcAll
  split
  · unfold calcAllInit
    constructor
    · refine updateUnknownUidList_lookup env _ u n ?_ hl
      intro w hw
      simp only [hp] at hw
      cases hw
    · exact updateUnknownUidList_pending env _
  · constructor
    · simp only [calcAllRun]
      rw [foldl_calcStep_nameMap]
      refine updateUnknownUidList_lookup env _ u n ?_ hl
      intro w hw
      simp only [hp, List.nil_append] at hw
      have hnone := mem_calcIncrementPending _ _ _ w hw
      intro hEq
      rw [hEq, hl] at hnone
      cases hnone
    · simp only [calcAllRun]
      rw [foldl_calcStep_pending]
      exact updateUnknownUidList_pending env _

/-- Claim C6: name-cache monotonicity — once an owner id is mapped to a
name, no later tick (each tick runs `calcAll`, which performs the
`calcIncrement` and `updateUnknownUidList` calls of the program) removes
that entry or changes its value, whatever snapshots arrive and however the
resolver environments answer.  The hypothesis that the pending list is
empty holds between ticks: every `calcAll` leaves it empty. -/
theorem nameCache_monotone (ticks : List (Env × List user_io × Nat)) (st : IoStats)
    (u : Nat) (n : String) (hp : st.mUnknownUidList = [])
    (hl : lookupName st.mUidNameMap u = some n) :
    lookupName (runTicks st ticks).mUidNameMap u = some n := by
  induction ticks generalizing st with
  | nil => exact hl
  | cons t ts ih =>
    have h := calcAll_lookup_mono t.1 st t.2.1 t.2.2 u n hp hl
    exact ih _ h.2 h.1

/-- Witness instantiating the cache-monotonicity theorem at a concrete
cached entry and one concrete tick. -/
theorem nameCache_monotone_witness :
    lookupName (runTicks stCached [(envFix, [recA], 7)]).mUidNameMap 5 = some "root" :=
  nameCache_monotone [(envFix, [recA], 7)] stCached 5 "root" rfl (by decide)

/-! ### Parsing analysis -/

/-- Claim C8 counterexample: the line `"1\t2 3 4 5 6 7 8 9 10 11"` has 11
whitespace-separated fields, every required one numeric, yet
`read_line_to_data` rejects it — the code splits on single space characters
only, so the tab stays inside field 0 and only 10 space-fields exist. -/
theorem read_line_whitespace_counterexample :
    (wsFields tabLine).length = 11
      ∧ (parseUintDigits W32 ((wsFields tabLine).getD 0 [])).isSome = true
      ∧ ([3, 4, 7, 8, 9, 10].all
          (fun i => (parseUintDigits W64 ((wsFields tabLine).getD i [])).isSome)) = true
      ∧ (splitOnChar ' ' tabLine.data).length = 10
      ∧ read_line_to_data tabLine = none := by
  decide

/-- Claim C8 (amended): a line is accepted exactly when its
single-space-separated fields (empty pieces between consecutive spaces
count as fields) number at least 11 and fields 0, 3, 4, 7, 8, 9, 10 parse
as unsigned integers (field 0 fitting 32 bits, the others 64), in which
case the record takes uid from field 0, fg_read/fg_write from fields 3/4,
bg_read/bg_write from fields 7/8 and fg_fsync/bg_fsync from fields 9/10;
and a rejected line leaves the snapshot built from the surrounding lines
unchanged (the tick continues with the remaining lines). -/
theorem read_line_to_data_amended :
    (∀ (line : String) (r : user_io),
        read_line_to_data line = some r ↔
          (11 ≤ (splitOnChar ' ' line.data).length
            ∧ parseUintDigits W32 ((splitOnChar ' ' line.data).getD 0 []) = some r.uid
            ∧ parseUintDigits W64 ((splitOnChar ' ' line.data).getD 3 []) = some r.fg_read
            ∧ parseUintDigits W64 ((splitOnChar ' ' line.data).getD 4 []) = some r.fg_write
            ∧ parseUintDigits W64 ((splitOnChar ' ' line.data).getD 7 []) = some r.bg_read
            ∧ parseUintDigits W64 ((splitOnChar ' ' line.data).getD 8 []) = some r.bg_write
            ∧ parseUintDigits W64 ((splitOnChar ' ' line.data).getD 9 []) = some r.fg_fsync
            ∧ parseUintDigits W64 ((splitOnChar ' ' line.data).getD 10 []) = some r.bg_fsync))
    ∧ (∀ (pre post : List String) (bad : String), read_line_to_data bad = none →
        snapshotOfLines (pre ++ bad :: post) = snapshotOfLines (pre ++ post)) := by
  constructor
  · intro line r
    obtain ⟨ru, r1, r2, r3, r4, r5, r6⟩ := r
    unfold read_line_to_data
    by_cases hlen : (splitOnChar ' ' line.data).length < 11
    · rw [if_pos hlen]
      constructor
      · intro h
        exact Option.noConfusion h
      · rintro ⟨h11, -⟩
        omega
    · rw [if_neg hlen]
      have h11 : 11 ≤ (splitOnChar ' ' line.data).length := by omega
      cases h0 : parseUintDigits W32 ((splitOnChar ' ' line.data).getD 0 []) with
      | none => simp [h0]
      | some u =>
        cases h3 : parseUintDigits W64 ((splitOnChar ' ' line.data).getD 3 []) with
        | none => simp [h3]
        | some f3 =>
          cases h4 : parseUintDigits W64 ((splitOnChar ' ' line.data).getD 4 []) with
          | none => simp [h4]
          | some f4 =>
            cases h7 : parseUintDigits W64 ((splitOnChar ' ' line.data).getD 7 []) with
            | none => simp [h7]
            | some f7 =>
              cases h8 : parseUintDigits W64 ((splitOnChar ' ' line.data).getD 8 []) with
              | none => simp [h8]
              | some f8 =>
                cases h9 : parseUintDigits W64 ((splitOnChar ' ' line.data).getD 9 []) with
                | none => simp [h9]
                | some f9 =>
                  cases h10 : parseUintDigits W64 ((splitOnChar ' ' line.data).getD 10 []) with
                  | none => simp [h10]
                  | some f10 =>
                    simp only [Option.some_inj, user_io.mk.injEq, h11, true_and]
  · intro pre post bad hbad
    unfold snapshotOfLines
    rw [List.foldl_append, List.foldl_append, List.foldl_cons]
    congr 1
    by_cases hb : bad = ""
    · rw [if_pos hb]
    · rw [if_neg hb, hbad]

/-- Witness instantiating the amended parsing theorem: a well-formed
space-separated line parses to the expected record, and a rejected line
does not affect the snapshot built around it. -/
theorem read_line_to_data_amended_witness :
    read_line_to_data "0 1 2 3 4 5 6 7 8 9 10" = some ⟨0, 3, 4, 7, 8, 9, 10⟩
      ∧ snapshotOfLines (["0 1 2 3 4 5 6 7 8 9 10"] ++ "x" :: []) =
          snapshotOfLines (["0 1 2 3 4 5 6 7 8 9 10"] ++ []) :=
  ⟨(read_line_to_data_amended.1 "0 1 2 3 4 5 6 7 8 9 10" ⟨0, 3, 4, 7, 8, 9, 10⟩).mpr
      (by decide),
    read_line_to_data_amended.2 ["0 1 2 3 4 5 6 7 8 9 10"] [] "x" (by decide)⟩

end Perfstatsd
